import Mathlib

/-!
Shallow embedding of the chain-indexing core of `bitcore-node-zen`:
the leveldb-backed `DB` service (version gate, tip bookkeeping, service
prefix allocator, block connect/disconnect) and the transaction service's
value codec.  Node `Buffer`s are modelled as lists of byte values
(`List Nat`, each element < 256 in well-formed data); the leveldb store is
an association list from byte keys to byte values where a later `put`
shadows earlier entries.  JavaScript numbers holding block heights are
modelled as `Int` (so that `height - 1` at height 0 faithfully produces a
negative, out-of-range value), and numbers that are only ever moved
through IEEE-754 big-endian doubles (timestamps, input values) are
modelled by their 64-bit bit patterns.  A synchronous JavaScript `throw`
from a `Buffer` bounds check is modelled as an error result.
-/

set_option maxHeartbeats 1000000

/-- Error values surfaced by the embedded code paths: leveldb not-found,
a `RangeError` thrown by a Node `Buffer` bounds check, or an ordinary
`Error` carrying a message. -/
inductive DbError where
  | notFound
  | rangeError
  | err (msg : String)
deriving DecidableEq

deriving instance DecidableEq for Except

/-- A Node `Buffer`: a list of byte values. -/
abbrev Buffer := List Nat

/-- The two big-endian bytes of a 16-bit value. -/
def enc16 (v : Nat) : Buffer := [v / 256, v % 256]

/-- `buf.writeUInt16BE(v)` on a fresh 2-byte buffer: big-endian 16-bit
write; Node throws a `RangeError` when the value exceeds `0xffff`. -/
def writeUInt16BE (v : Nat) : Except DbError Buffer :=
  if v ≤ 65535 then .ok (enc16 v) else .error .rangeError

/-- `buf.readUInt16BE(off)`: big-endian 16-bit read; Node throws a
`RangeError` when fewer than two bytes remain at the offset. -/
def readUInt16BE (b : Buffer) (off : Nat) : Except DbError Nat :=
  match b.drop off with
  | b0 :: b1 :: _ => .ok (b0 * 256 + b1)
  | _ => .error .rangeError

/-- The four big-endian bytes of a 32-bit value. -/
def be32 (v : Nat) : Buffer :=
  [v / 16777216 % 256, v / 65536 % 256, v / 256 % 256, v % 256]

/-- `buf.writeUInt32BE(v)` on a fresh 4-byte buffer.  The argument is an
`Int` because the source writes `block.__height - 1`, which is negative
for height 0; Node throws a `RangeError` for values outside `[0, 2^32)`. -/
def writeUInt32BE (v : Int) : Except DbError Buffer :=
  if 0 ≤ v ∧ v < 4294967296 then .ok (be32 v.toNat) else .error .rangeError

/-- `buf.readUInt32BE(off)`: big-endian 32-bit read. -/
def readUInt32BE (b : Buffer) (off : Nat) : Except DbError Nat :=
  match b.drop off with
  | b0 :: b1 :: b2 :: b3 :: _ => .ok (((b0 * 256 + b1) * 256 + b2) * 256 + b3)
  | _ => .error .rangeError

/-- `buf.writeDoubleBE(x)`: the eight big-endian bytes of the IEEE-754
bit pattern of `x`; the number is modelled by that 64-bit pattern. -/
def writeDoubleBE (bits : Nat) : Buffer :=
  [bits / 72057594037927936 % 256, bits / 281474976710656 % 256,
   bits / 1099511627776 % 256, bits / 4294967296 % 256,
   bits / 16777216 % 256, bits / 65536 % 256, bits / 256 % 256, bits % 256]

/-- `buf.readDoubleBE(off)`: big-endian 64-bit read of an IEEE-754 bit
pattern; Node throws a `RangeError` when fewer than eight bytes remain. -/
def readDoubleBE (b : Buffer) (off : Nat) : Except DbError Nat :=
  match b.drop off with
  | b0 :: b1 :: b2 :: b3 :: b4 :: b5 :: b6 :: b7 :: _ =>
    .ok (((((((b0 * 256 + b1) * 256 + b2) * 256 + b3) * 256 + b4) * 256 + b5)
        * 256 + b6) * 256 + b7)
  | _ => .error .rangeError

/-- The levelup store: byte keys to byte values, most recent write first. -/
structure Store where
  entries : List (Buffer × Buffer)
deriving DecidableEq

/-- `store.get(key)`: the most recently written value, if any. -/
def Store.get (s : Store) (k : Buffer) : Option Buffer :=
  s.entries.lookup k

/-- `store.put(key, value)`. -/
def Store.put (s : Store) (k : Buffer) (v : Buffer) : Store :=
  ⟨(k, v) :: s.entries⟩

/-- `store.del(key)`. -/
def Store.del (s : Store) (k : Buffer) : Store :=
  ⟨s.entries.filter (fun e => !(e.1 == k))⟩

/-- A brand-new, empty database. -/
def emptyStore : Store := ⟨[]⟩

/-- A string key as stored under binary key encoding (all keys in the
source are NUL/ASCII, where UTF-8 bytes coincide with code points). -/
def strKey (s : String) : Buffer := s.data.map Char.toNat

/-- Key `dbPrefix + 'tip'` (`dbPrefix` is `'\u0000\u0000'`). -/
def tipKey : Buffer := strKey "\u0000\u0000tip"

/-- Key `dbPrefix + 'concurrentTip'`. -/
def concurrentTipKey : Buffer := strKey "\u0000\u0000concurrentTip"

/-- Key `dbPrefix + 'version'`. -/
def versionKey : Buffer := strKey "\u0000\u0000version"

/-- Key `dbPrefix + 'nextUnused'`. -/
def nextUnusedKey : Buffer := strKey "\u0000\u0000nextUnused"

/-- Key `dbPrefix + 'prefix-' + service`. -/
def prefixKey (service : String) : Buffer :=
  strKey ("\u0000\u0000prefix-" ++ service)

/-- `this.version = 2` in the `DB` constructor. -/
def dbVersion : Nat := 2

/-- `DB.prototype.getPrefix`: return the stored prefix for `service` if
present; otherwise read `nextUnused` (defaulting to the buffer
`0x0001`), store it under `prefix-<service>`, then store `nextUnused+1`.
The 16-bit write of the incremented value throws a `RangeError` when it
does not fit, after the prefix assignment has already been written. -/
def getPrefix (service : String) (store : Store) :
    Except DbError Buffer × Store :=
  match store.get (prefixKey service) with
  | some buffer => (.ok buffer, store)
  | none =>
    let buffer := (store.get nextUnusedKey).getD [0, 1]
    let store1 := store.put (prefixKey service) buffer
    match readUInt16BE buffer 0 with
    | .error e => (.error e, store1)
    | .ok v =>
      match writeUInt16BE (v + 1) with
      | .error e => (.error e, store1)
      | .ok nextUnused => (.ok buffer, store1.put nextUnusedKey nextUnused)

/-- The reindex help link used in the version-mismatch message. -/
def helpUrl : String :=
  "https://github.com/bitpay/bitcore-node/blob/master/docs/services/db.md#how-to-reindex"

/-- The message of the error produced by `DB.prototype._checkVersion`
when the stored version differs from the compiled one. -/
def versionErrorMessage (stored : Nat) (dataPath : String) : String :=
  "The version of the database \"" ++ toString stored ++
    "\" does not match the expected version \"" ++ toString dbVersion ++
    "\". A recreation of \"" ++ dataPath ++
    "\" (can take several hours) is required or to switch versions of software to match. Please see " ++
    helpUrl ++ " for more information."

/-- `DB.prototype._checkVersion`: skip the check when no tip is stored;
otherwise read `version` (absence means the legacy version 1) and fail
when it differs from the compiled version. -/
def checkVersion (dataPath : String) (store : Store) : Except DbError Unit :=
  match store.get tipKey with
  | none => .ok ()
  | some _ =>
    match (match store.get versionKey with
           | none => Except.ok 1
           | some buffer => readUInt32BE buffer 0) with
    | .error e => .error e
    | .ok version =>
      if dbVersion ≠ version then
        .error (.err (versionErrorMessage version dataPath))
      else .ok ()

/-- `DB.prototype._setVersion`: write the compiled version, big-endian. -/
def setVersion (store : Store) : Except DbError Store :=
  match writeUInt32BE (dbVersion : Int) with
  | .error e => .error e
  | .ok versionBuffer => .ok (store.put versionKey versionBuffer)

/-- The `async.series([_checkVersion, _setVersion])` phase of
`DB.prototype.start`: an error from the check aborts the series before
`_setVersion` runs, so the store is left untouched. -/
def startVersionPhase (dataPath : String) (store : Store) :
    Except DbError Unit × Store :=
  match checkVersion dataPath store with
  | .error e => (.error e, store)
  | .ok _ =>
    match setVersion store with
    | .error e => (.error e, store)
    | .ok st => (.ok (), st)

/-- The lowercase hex digit for a value below 16, as produced by
`Buffer.prototype.toString('hex')`. -/
def hexDigitChar (n : Nat) : Char :=
  if n < 10 then Char.ofNat (48 + n) else Char.ofNat (87 + n)

/-- `Buffer.prototype.toString('hex')`: two lowercase digits per byte. -/
def bytesToHexChars : List Nat → List Char
  | [] => []
  | b :: rest => hexDigitChar (b / 16) :: hexDigitChar (b % 16) :: bytesToHexChars rest

/-- `Buffer.prototype.toString('hex')` packaged as a string. -/
def bytesToHexStr (l : List Nat) : String := ⟨bytesToHexChars l⟩

/-- The value of a hex digit character (`0-9`, `a-f`, `A-F`), if any. -/
def hexCharVal (c : Char) : Option Nat :=
  if 48 ≤ c.toNat ∧ c.toNat ≤ 57 then some (c.toNat - 48)
  else if 97 ≤ c.toNat ∧ c.toNat ≤ 102 then some (c.toNat - 87)
  else if 65 ≤ c.toNat ∧ c.toNat ≤ 70 then some (c.toNat - 55)
  else none

/-- `new Buffer(str, 'hex')`: consume hex digit pairs, truncating at the
first pair that is not two hex digits (Node semantics). -/
def hexToBytes : List Char → List Nat
  | c1 :: c2 :: rest =>
    match hexCharVal c1, hexCharVal c2 with
    | some hi, some lo => (hi * 16 + lo) :: hexToBytes rest
    | _, _ => []
  | _ => []

/-- `new Buffer(s, 'hex')` from a Lean string. -/
def bufferFromHex (s : String) : Buffer := hexToBytes s.data

/-- A bitcore block as the `DB` service consumes it: `block.hash` is a
hex string, `block.header.prevHash` a buffer in internal byte order, and
`block.__height` the height decoration (a JS number, hence `Int`). -/
structure Block where
  hash : String
  prevHash : Buffer
  height : Int
deriving DecidableEq

/-- The `type` field of a levelup batch operation. -/
inductive OpType where
  | put
  | del
deriving DecidableEq

/-- A levelup batch operation `{type, key, value}`. -/
structure BatchOp where
  type : OpType
  key : Buffer
  value : Buffer
deriving DecidableEq

/-- `DB.prototype.getTipOperation`: a put of `hash ∥ heightBE32` under
the tip key when adding, else `reverse(prevHash) ∥ (height-1)BE32`. -/
def getTipOperation (block : Block) (add : Bool) : Except DbError BatchOp :=
  if add then
    match writeUInt32BE block.height with
    | .error e => .error e
    | .ok heightBuffer =>
      .ok ⟨.put, tipKey, bufferFromHex block.hash ++ heightBuffer⟩
  else
    match writeUInt32BE (block.height - 1) with
    | .error e => .error e
    | .ok heightBuffer =>
      .ok ⟨.put, tipKey, block.prevHash.reverse ++ heightBuffer⟩

/-- `DB.prototype.getConcurrentTipOperation`: identical to
`getTipOperation` except for the key. -/
def getConcurrentTipOperation (block : Block) (add : Bool) :
    Except DbError BatchOp :=
  if add then
    match writeUInt32BE block.height with
    | .error e => .error e
    | .ok heightBuffer =>
      .ok ⟨.put, concurrentTipKey, bufferFromHex block.hash ++ heightBuffer⟩
  else
    match writeUInt32BE (block.height - 1) with
    | .error e => .error e
    | .ok heightBuffer =>
      .ok ⟨.put, concurrentTipKey, block.prevHash.reverse ++ heightBuffer⟩

/-- A service's optional `blockHandler` / `concurrentBlockHandler`:
given the block and the connect flag it produces batch operations, a
falsy value (modelled `none`), or an error. -/
abbrev BlockHandler := Block → Bool → Except DbError (Option (List BatchOp))

/-- A registered service as the `DB` block applier sees it. -/
structure Service where
  concurrentBlockHandler : Option BlockHandler
  blockHandler : Option BlockHandler

/-- One iteration of the handler fan-out: services without the handler
are skipped, a falsy result contributes nothing, and an error is
propagated. -/
def runBlockHandler (h : Option BlockHandler) (block : Block) (add : Bool) :
    Except DbError (List BatchOp) :=
  match h with
  | none => .ok []
  | some handler =>
    match handler block add with
    | .error e => .error e
    | .ok none => .ok []
    | .ok (some ops) => .ok ops

/-- `DB.prototype.getConcurrentBlockOperations`: concatenate every
service's `concurrentBlockHandler` operations; the first error aborts.
(`async.each` starts the handlers in service order; the completion
order, immaterial to the claims, is modelled as the service order.) -/
def getConcurrentBlockOperations :
    List Service → Block → Bool → Except DbError (List BatchOp)
  | [], _, _ => .ok []
  | svc :: rest, block, add =>
    match runBlockHandler svc.concurrentBlockHandler block add with
    | .error e => .error e
    | .ok ops =>
      match getConcurrentBlockOperations rest block add with
      | .error e => .error e
      | .ok restOps => .ok (ops ++ restOps)

/-- `DB.prototype.getSerialBlockOperations`: as above but sequentially
over each service's `blockHandler` (`async.eachSeries`). -/
def getSerialBlockOperations :
    List Service → Block → Bool → Except DbError (List BatchOp)
  | [], _, _ => .ok []
  | svc :: rest, block, add =>
    match runBlockHandler svc.blockHandler block add with
    | .error e => .error e
    | .ok ops =>
      match getSerialBlockOperations rest block add with
      | .error e => .error e
      | .ok restOps => .ok (ops ++ restOps)

/-- Apply one batch operation to the store. -/
def Store.applyOp (s : Store) (op : BatchOp) : Store :=
  match op.type with
  | .put => s.put op.key op.value
  | .del => s.del op.key

/-- `store.batch(ops)`: apply the operations in order, atomically. -/
def Store.applyBatch (s : Store) (ops : List BatchOp) : Store :=
  ops.foldl Store.applyOp s

/-- `DB.prototype.connectBlock`: gather concurrent-handler operations,
then serial-handler operations, append the tip and concurrent-tip puts,
and submit everything as one `store.batch`; any error aborts with no
batch submitted.  The result records the callback outcome, the store
after the call, and the list of batches submitted. -/
def connectBlock (services : List Service) (block : Block) (store : Store) :
    Except DbError Unit × Store × List (List BatchOp) :=
  match getConcurrentBlockOperations services block true with
  | .error e => (.error e, store, [])
  | .ok concurrentOps =>
    match getSerialBlockOperations services block true with
    | .error e => (.error e, store, [])
    | .ok serialOps =>
      match getTipOperation block true with
      | .error e => (.error e, store, [])
      | .ok tipOp =>
        match getConcurrentTipOperation block true with
        | .error e => (.error e, store, [])
        | .ok concurrentTipOp =>
          let operations := concurrentOps ++ serialOps ++ [tipOp, concurrentTipOp]
          (.ok (), store.applyBatch operations, [operations])

/-- `DB.prototype.disconnectBlock`: identical shape with `add = false`. -/
def disconnectBlock (services : List Service) (block : Block) (store : Store) :
    Except DbError Unit × Store × List (List BatchOp) :=
  match getConcurrentBlockOperations services block false with
  | .error e => (.error e, store, [])
  | .ok concurrentOps =>
    match getSerialBlockOperations services block false with
    | .error e => (.error e, store, [])
    | .ok serialOps =>
      match getTipOperation block false with
      | .error e => (.error e, store, [])
      | .ok tipOp =>
        match getConcurrentTipOperation block false with
        | .error e => (.error e, store, [])
        | .ok concurrentTipOp =>
          let operations := concurrentOps ++ serialOps ++ [tipOp, concurrentTipOp]
          (.ok (), store.applyBatch operations, [operations])

/-- How a tip-load call ends: callback with no error, callback with an
error, return without ever invoking the callback, or a synchronous
throw escaping the store callback. -/
inductive LoadOutcome where
  | callbackOk
  | callbackErr (e : DbError)
  | hang
  | thrown (e : DbError)
deriving DecidableEq

/-- Observable result of a tip load: the outcome, the tip assigned on
the instance (if any), the store afterwards, and the batches written. -/
structure LoadResult where
  outcome : LoadOutcome
  tip : Option Block
  store : Store
  batches : List (List BatchOp)
deriving DecidableEq

/-- `async.retry({times: 3})` around an upstream `getBlock`: up to three
attempts, returning the first success or the last error.  The attempt
oracle maps the attempt number to that attempt's result. -/
def retryGetBlock (attempt : Nat → Except DbError Block) :
    Except DbError Block :=
  match attempt 0 with
  | .ok b => .ok b
  | .error _ =>
    match attempt 1 with
    | .ok b => .ok b
    | .error _ => attempt 2

/-- `DB.prototype.loadTip`: when the tip key is absent, set the tip to
genesis at height 0, connect the genesis block, and invoke the callback;
when present, decode `hash ∥ heightBE32` and fetch the block upstream
with up to three attempts, assigning the decoded height on success. -/
def loadTip (services : List Service) (genesis : Block)
    (getBlock : String → Nat → Except DbError Block) (store : Store) :
    LoadResult :=
  match store.get tipKey with
  | none =>
    let g : Block := { genesis with height := 0 }
    match connectBlock services g store with
    | (.error e, st, batches) => ⟨.callbackErr e, some g, st, batches⟩
    | (.ok _, st, batches) => ⟨.callbackOk, some g, st, batches⟩
  | some tipData =>
    let hash := bytesToHexStr (tipData.take 32)
    match readUInt32BE tipData 32 with
    | .error e => ⟨.thrown e, none, store, []⟩
    | .ok height =>
      match retryGetBlock (getBlock hash) with
      | .error e => ⟨.callbackErr e, none, store, []⟩
      | .ok blk => ⟨.callbackOk, some { blk with height := (height : Int) }, store, []⟩

/-- `DB.prototype.loadConcurrentTip`: when the concurrent-tip key is
absent, set the concurrent tip to genesis at height 0 and `return`
without invoking the callback (the source lacks the `callback()` call
that `loadTip` has); when present, proceed exactly as `loadTip` does. -/
def loadConcurrentTip (genesis : Block)
    (getBlock : String → Nat → Except DbError Block) (store : Store) :
    LoadResult :=
  match store.get concurrentTipKey with
  | none =>
    ⟨.hang, some { genesis with height := 0 }, store, []⟩
  | some tipData =>
    let hash := bytesToHexStr (tipData.take 32)
    match readUInt32BE tipData 32 with
    | .error e => ⟨.thrown e, none, store, []⟩
    | .ok height =>
      match retryGetBlock (getBlock hash) with
      | .error e => ⟨.callbackErr e, none, store, []⟩
      | .ok blk => ⟨.callbackOk, some { blk with height := (height : Int) }, store, []⟩

/-- A bitcore transaction as the transaction service's codec sees it:
the raw bytes (`transaction.toBuffer()`), the `__height` decoration, and
the `__timestamp` / `__inputValues` decorations as IEEE-754 bit
patterns. -/
structure Tx where
  txBytes : Buffer
  height : Int
  timestamp : Nat
  inputValues : List Nat
deriving DecidableEq

/-- The input-values buffer: eight big-endian double bytes per value. -/
def writeDoubles : List Nat → Buffer
  | [] => []
  | v :: rest => writeDoubleBE v ++ writeDoubles rest

/-- `TransactionService.prototype._encodeTransactionValue`:
`heightBE32 ∥ timestampDoubleBE ∥ (8·n)BE16 ∥ inputValueDoubles ∥ txBytes`. -/
def encodeTransactionValue (tx : Tx) : Except DbError Buffer :=
  match writeUInt32BE tx.height with
  | .error e => .error e
  | .ok heightBuffer =>
    let timestampBuffer := writeDoubleBE tx.timestamp
    let inputValuesBuffer := writeDoubles tx.inputValues
    match writeUInt16BE (tx.inputValues.length * 8) with
    | .error e => .error e
    | .ok lengthBuffer =>
      .ok (heightBuffer ++ timestampBuffer ++ lengthBuffer ++
        inputValuesBuffer ++ tx.txBytes)

/-- The decoder's input-value loop: read `count` doubles starting at
byte offset `i*8 + 14`. -/
def readInputValues (b : Buffer) : Nat → Nat → Except DbError (List Nat)
  | _, 0 => .ok []
  | i, Nat.succ k =>
    match readDoubleBE b (i * 8 + 14) with
    | .error e => .error e
    | .ok v =>
      match readInputValues b (i + 1) k with
      | .error e => .error e
      | .ok rest => .ok (v :: rest)

/-- `TransactionService.prototype._decodeTransactionValue`: height at 0,
timestamp at 4, input-values byte length at 12, the input values from
offset 14, and the transaction bytes after them. -/
def decodeTransactionValue (b : Buffer) : Except DbError Tx :=
  match readUInt32BE b 0 with
  | .error e => .error e
  | .ok height =>
    match readDoubleBE b 4 with
    | .error e => .error e
    | .ok timestamp =>
      match readUInt16BE b 12 with
      | .error e => .error e
      | .ok inputValuesLength =>
        match readInputValues b 0 (inputValuesLength / 8) with
        | .error e => .error e
        | .ok inputValues =>
          .ok ⟨b.drop (inputValues.length * 8 + 14), (height : Int),
            timestamp, inputValues⟩

/-- Store states producible by sequences of allocator calls starting
from the empty database (an erroring call still leaves its partial
writes behind, as the store is persistent). -/
inductive ReachableStore : Store → Prop where
  | base : ReachableStore emptyStore
  | step (s : Store) (name : String) :
      ReachableStore s → ReachableStore ( getPrefix name s).2

/-- Store states producible by sequences of allocator calls that all
succeed. -/
inductive OkReachableStore : Store → Prop where
  | base : OkReachableStore emptyStore
  | step (s : Store) (name : String) (b : Buffer) :
      OkReachableStore s → ( getPrefix name s).1 = .ok b →
      OkReachableStore ( getPrefix name s).2

/-- The invariant maintained by error-free allocator histories: stored
prefix values determine the service name, and every stored value is a
16-bit big-endian buffer strictly below the stored `nextUnused` value. -/
def PrefixInvariant (st : Store) : Prop :=
  (∀ n1 n2 b, st.get (prefixKey n1) = some b → st.get (prefixKey n2) = some b →
     n1 = n2) ∧
  (match st.get nextUnusedKey with
   | none => ∀ name, st.get (prefixKey name) = none
   | some u => ∃ v, v ≤ 65535 ∧ u = enc16 v ∧
       ∀ name b, st.get (prefixKey name) = some b → ∃ w, b = enc16 w ∧ w < v)

/-- The service name made of `k` letters `a` (used to build an explicit
family of pairwise-distinct service names). -/
def aName (k : Nat) : String := ⟨List.replicate k 'a'⟩

/-- The first `k` names of that family, in order. -/
def traceNames (k : Nat) : List String :=
  (List.range k).map (fun i => aName (i + 1))

/-- Run a sequence of allocator calls, keeping only the store. -/
def runPrefixCalls (names : List String) (st : Store) : Store :=
  names.foldl (fun s n => ( getPrefix n s).2) st

/-- The store contents after `k` successful fresh assignments to
`aName 1 … aName k`: those names hold `0x0001 … k`, every later name
and `"b"` are unassigned, and `nextUnused` holds `k+1` (absent when
`k = 0`). -/
def TraceState (k : Nat) (st : Store) : Prop :=
  (∀ i, 1 ≤ i → i ≤ k → st.get (prefixKey (aName i)) = some (enc16 i)) ∧
  (∀ j, k < j → st.get (prefixKey (aName j)) = none) ∧
  st.get (prefixKey "b") = none ∧
  st.get nextUnusedKey = (if k = 0 then none else some (enc16 (k + 1)))

/-! ## Helper lemmas about the store and key layout -/

theorem store_get_put_self (s : Store) (k v : Buffer) :
    (s.put k v).get k = some v := by
  simp [Store.get, Store.put, List.lookup]

theorem store_get_put_ne (s : Store) {k k2 : Buffer} (v : Buffer)
    (h : k2 ≠ k) : (s.put k v).get k2 = s.get k2 := by
  simp [Store.get, Store.put, List.lookup, beq_eq_false_iff_ne.mpr h]

theorem prefixKey_eq (s : String) :
    prefixKey s = [0, 0, 112, 114, 101, 102, 105, 120, 45] ++ strKey s := by
  simp [prefixKey, strKey, String.data_append]

theorem nextUnusedKey_ne_prefixKey (s : String) :
    nextUnusedKey ≠ prefixKey s := by
  intro h
  rw [prefixKey_eq] at h
  simp [nextUnusedKey, strKey] at h

theorem char_toNat_injective : Function.Injective Char.toNat := by
  intro a b h
  have := congrArg Char.ofNat h
  rwa [Char.ofNat_toNat, Char.ofNat_toNat] at this

theorem strKey_injective : Function.Injective strKey := by
  intro a b h
  have hdata : a.data = b.data :=
    List.map_injective_iff.mpr char_toNat_injective h
  cases a
  cases b
  exact congrArg String.mk hdata

theorem prefixKey_injective {s1 s2 : String}
    (h : prefixKey s1 = prefixKey s2) : s1 = s2 := by
  rw [prefixKey_eq, prefixKey_eq] at h
  exact strKey_injective (List.append_cancel_left h)

theorem readUInt16BE_enc16 (v : Nat) :
    readUInt16BE (enc16 v) 0 = .ok v := by
  simp [readUInt16BE, enc16]
  omega

/-! ## C3: version gate -/

/-- C3: when the database already has a stored tip and its stored schema
version (absence of the version key implying the legacy version 1)
differs from the compiled version 2, the startup version phase fails
with an error message carrying both version numbers and the reindex
link, and the store is left unmutated (in particular `_setVersion` never
runs). -/
theorem c3_version_gate (dataPath : String) (store : Store) (tipData : Buffer)
    (stored : Nat)
    (htip : store.get tipKey = some tipData)
    (hver : (store.get versionKey = none ∧ stored = 1) ∨
            (∃ vb, store.get versionKey = some vb ∧ readUInt32BE vb 0 = .ok stored))
    (hne : stored ≠ dbVersion) :
    startVersionPhase dataPath store =
      (.error (.err (versionErrorMessage stored dataPath)), store) ∧
    ∃ s1 s2 s3 s4, versionErrorMessage stored dataPath =
      s1 ++ toString stored ++ s2 ++ toString dbVersion ++ s3 ++ helpUrl ++ s4 := by
  constructor
  · have hchk : checkVersion dataPath store =
        .error (.err (versionErrorMessage stored dataPath)) := by
      rcases hver with ⟨hnone, hone⟩ | ⟨vb, hsome, hread⟩
      · subst hone
        simp only [checkVersion, htip, hnone]
        rw [if_pos (by decide : dbVersion ≠ 1)]
      · simp only [checkVersion, htip, hsome, hread]
        rw [if_pos (Ne.symm hne)]
    unfold startVersionPhase
    rw [hchk]
  · exact ⟨"The version of the database \"",
      "\" does not match the expected version \"",
      "\". A recreation of \"" ++ dataPath ++ "\" (can take several hours) is required or to switch versions of software to match. Please see ",
      " for more information.",
      by simp [versionErrorMessage, String.append_assoc]⟩

/-- Witness for C3 at a concrete version-1 store. -/
theorem c3_version_gate_witness :
    startVersionPhase "/data" ⟨[(tipKey, [7]), (versionKey, [0, 0, 0, 1])]⟩ =
      (.error (.err (versionErrorMessage 1 "/data")),
       (⟨[(tipKey, [7]), (versionKey, [0, 0, 0, 1])]⟩ : Store)) :=
  (c3_version_gate "/data" ⟨[(tipKey, [7]), (versionKey, [0, 0, 0, 1])]⟩ [7] 1
    (by decide) (Or.inr ⟨[0, 0, 0, 1], by decide, by decide⟩) (by decide)).1

/-! ## C4: idempotent prefix assignment -/

/-- C4 (amended): `getPrefix` is idempotent: when `prefix-<service>` is
already stored its value is returned and nothing is written; otherwise,
provided the 16-bit value read from `nextUnused` (defaulting to
`0x0001` when absent) is below `0xffff`, that value is written under
`prefix-<service>`, `nextUnused` is rewritten as the value plus one,
the assigned value is returned, and a repeated call with the same
service name returns the same value.  (The unamended claim fails when
the value read is `0xffff`: the increment's 16-bit write throws a
`RangeError` and no value is returned.) -/
theorem c4_prefix_assignment (store : Store) (service : String) :
    (∀ buffer, store.get (prefixKey service) = some buffer →
       getPrefix service store = (.ok buffer, store)) ∧
    (∀ v, store.get (prefixKey service) = none →
       readUInt16BE ((store.get nextUnusedKey).getD [0, 1]) 0 = .ok v →
       v < 65535 →
       getPrefix service store =
         (.ok ((store.get nextUnusedKey).getD [0, 1]),
          (store.put (prefixKey service) ((store.get nextUnusedKey).getD [0, 1])).put
            nextUnusedKey (enc16 (v + 1))) ∧
       ( getPrefix service (( getPrefix service store).2)).1 =
         .ok ((store.get nextUnusedKey).getD [0, 1])) := by
  refine ⟨fun buffer h => by simp [ getPrefix, h], fun v hmiss hread hlt => ?_⟩
  have hok : writeUInt16BE (v + 1) = .ok (enc16 (v + 1)) := by
    unfold writeUInt16BE
    rw [if_pos (by omega : v + 1 ≤ 65535)]
  have h1 : getPrefix service store =
      (.ok ((store.get nextUnusedKey).getD [0, 1]),
       (store.put (prefixKey service) ((store.get nextUnusedKey).getD [0, 1])).put
         nextUnusedKey (enc16 (v + 1))) := by
    simp [ getPrefix, hmiss, hread, hok]
  refine ⟨h1, ?_⟩
  rw [h1]
  have hget : ((store.put (prefixKey service) ((store.get nextUnusedKey).getD [0, 1])).put
      nextUnusedKey (enc16 (v + 1))).get (prefixKey service) =
      some ((store.get nextUnusedKey).getD [0, 1]) := by
    rw [store_get_put_ne _ _ (Ne.symm (nextUnusedKey_ne_prefixKey service))]
    exact store_get_put_self ..
  simp [ getPrefix, hget]

/-- Witness for C4 on a fresh store: service `tx` is assigned `0x0001`
and a repeated call returns the same value. -/
theorem c4_prefix_assignment_witness :
    getPrefix "tx" emptyStore =
      (.ok [0, 1], (emptyStore.put (prefixKey "tx") [0, 1]).put nextUnusedKey (enc16 2)) ∧
    ( getPrefix "tx" (( getPrefix "tx" emptyStore).2)).1 = .ok [0, 1] := by
  have h := (c4_prefix_assignment emptyStore "tx").2 1 (by decide) (by decide) (by decide)
  exact ⟨by simpa using h.1, by simpa using h.2⟩

/-- C4 counterexample: with `nextUnused` stored as `0xffff` and
`prefix-one` absent, `getPrefix` returns a `RangeError` rather than the
assigned value, so the unamended claim is false. -/
theorem c4_counterexample :
    (⟨[(nextUnusedKey, [255, 255])]⟩ : Store).get (prefixKey "one") = none ∧
    ( getPrefix "one" ⟨[(nextUnusedKey, [255, 255])]⟩).1 = .error DbError.rangeError := by
  decide

/-! ## C9: prefix exhaustion -/

/-- C9 (amended): when the 16-bit value read from `nextUnused` is
`0xffff`, so the incremented value does not fit in a u16, `getPrefix`
fails with the `RangeError` thrown by `writeUInt16BE` — but only after
the new prefix assignment `prefix-<service> = 0xffff` has already been
written; `nextUnused` itself is left unchanged. -/
theorem c9_prefix_exhaustion (store : Store) (service : String)
    (hmiss : store.get (prefixKey service) = none)
    (hval : readUInt16BE ((store.get nextUnusedKey).getD [0, 1]) 0 = .ok 65535) :
    getPrefix service store =
      (.error .rangeError,
       store.put (prefixKey service) ((store.get nextUnusedKey).getD [0, 1])) := by
  simp [ getPrefix, hmiss, hval, writeUInt16BE]

/-- Witness for C9 at a concrete exhausted store. -/
theorem c9_prefix_exhaustion_witness :
    getPrefix "tx" ⟨[(nextUnusedKey, [255, 255])]⟩ =
      (.error .rangeError,
       (⟨[(nextUnusedKey, [255, 255])]⟩ : Store).put (prefixKey "tx") [255, 255]) := by
  have h := c9_prefix_exhaustion ⟨[(nextUnusedKey, [255, 255])]⟩ "tx" (by decide) (by decide)
  simpa using h

/-- C9 counterexample: contrary to the claim's "no new prefix assignment
takes effect", the assignment is persisted before the failing
increment: after the erroring call the store maps `prefix-two` to
`0xffff`. -/
theorem c9_counterexample :
    (( getPrefix "two" ⟨[(nextUnusedKey, [255, 255])]⟩).2).get (prefixKey "two") =
      some [255, 255] := by
  decide

/-! ## Helper lemmas about hex and big-endian encodings -/

theorem writeUInt32BE_ok (v : Int) (h0 : 0 ≤ v) (hlt : v < 4294967296) :
    writeUInt32BE v = .ok (be32 v.toNat) := by
  unfold writeUInt32BE
  rw [if_pos ⟨h0, hlt⟩]

theorem hexCharVal_hexDigitChar (n : Nat) (h : n < 16) :
    hexCharVal (hexDigitChar n) = some n := by
  interval_cases n <;> decide

theorem hexToBytes_bytesToHexChars (l : List Nat) (h : ∀ b ∈ l, b < 256) :
    hexToBytes (bytesToHexChars l) = l := by
  induction l with
  | nil => rfl
  | cons b t ih =>
    have hb : b < 256 := h b (by simp)
    have h1 : hexCharVal (hexDigitChar (b / 16)) = some (b / 16) :=
      hexCharVal_hexDigitChar _ (by omega)
    have h2 : hexCharVal (hexDigitChar (b % 16)) = some (b % 16) :=
      hexCharVal_hexDigitChar _ (by omega)
    simp [bytesToHexChars, hexToBytes, h1, h2, ih (fun x hx => h x (by simp [hx]))]
    omega

theorem hexToBytes_length : ∀ cs : List Char,
    (∀ c ∈ cs, (hexCharVal c).isSome) → (hexToBytes cs).length = cs.length / 2
  | [], _ => by simp [hexToBytes]
  | [c], _ => by simp [hexToBytes]
  | c1 :: c2 :: rest, h => by
    obtain ⟨v1, hv1⟩ := Option.isSome_iff_exists.mp (h c1 (by simp))
    obtain ⟨v2, hv2⟩ := Option.isSome_iff_exists.mp (h c2 (by simp))
    have ih := hexToBytes_length rest (fun c hc => h c (by simp [hc]))
    simp [hexToBytes, hv1, hv2, ih]
    omega

/-! ## C5: tip operation encoding -/

/-- C5: for every block with a u32 height decoration, the tip-update
operation is a put under the tip key whose value is the block hash bytes
followed by the 4-byte big-endian height when connecting (with a valid
64-digit hex hash decoding to 32 bytes), and, when disconnecting a block
at height ≥ 1, the byte-reversed `header.prevHash` (the parent hash)
followed by the 4-byte big-endian value height minus one. -/
theorem c5_tip_operation_encoding (blk : Block) :
    (0 ≤ blk.height → blk.height < 4294967296 →
       getTipOperation blk true =
         .ok ⟨.put, tipKey, bufferFromHex blk.hash ++ be32 blk.height.toNat⟩) ∧
    (blk.hash.data.length = 64 → (∀ c ∈ blk.hash.data, (hexCharVal c).isSome) →
       (bufferFromHex blk.hash).length = 32) ∧
    (1 ≤ blk.height → blk.height < 4294967296 →
       getTipOperation blk false =
         .ok ⟨.put, tipKey, blk.prevHash.reverse ++ be32 (blk.height - 1).toNat⟩ ∧
       (blk.height - 1).toNat = blk.height.toNat - 1 ∧
       (be32 (blk.height - 1).toNat).length = 4) := by
  refine ⟨fun h0 hlt => ?_, fun hlen hvalid => ?_, fun h1 hlt => ?_⟩
  · simp [getTipOperation, writeUInt32BE_ok blk.height h0 hlt]
  · rw [bufferFromHex, hexToBytes_length _ hvalid, hlen]
  · refine ⟨?_, by omega, by simp [be32]⟩
    simp [getTipOperation, writeUInt32BE_ok (blk.height - 1) (by omega) (by omega)]

/-- Witness for C5 at concrete blocks. -/
theorem c5_tip_operation_encoding_witness :
    getTipOperation ⟨"00ab", [1, 2, 3], 7⟩ true =
      .ok ⟨.put, tipKey, bufferFromHex "00ab" ++ be32 ((7 : Int)).toNat⟩ ∧
    (bufferFromHex (String.mk (List.replicate 64 '0'))).length = 32 ∧
    getTipOperation ⟨"00ab", [1, 2, 3], 7⟩ false =
      .ok ⟨.put, tipKey, [1, 2, 3].reverse ++ be32 (((7 : Int)) - 1).toNat⟩ :=
  ⟨(c5_tip_operation_encoding ⟨"00ab", [1, 2, 3], 7⟩).1 (by decide) (by decide),
   (c5_tip_operation_encoding ⟨String.mk (List.replicate 64 '0'), [], 0⟩).2.1
     (by decide) (by decide),
   ((c5_tip_operation_encoding ⟨"00ab", [1, 2, 3], 7⟩).2.2 (by decide) (by decide)).1⟩

/-! ## C6: tip record round-trip -/

/-- C6: for every 32-byte hash and u32 height, the connect-mode tip
operation encodes `hashBytes ∥ heightBE32`, and decoding that record as
done at tip load (first 32 bytes rendered as the hex hash, big-endian
u32 at offset 32 as the height) recovers exactly the encoded hash and
height. -/
theorem c6_tip_record_roundtrip (blk : Block) (hashBytes : Buffer)
    (hhash : blk.hash = bytesToHexStr hashBytes)
    (hlen : hashBytes.length = 32) (hbytes : ∀ b ∈ hashBytes, b < 256)
    (h0 : 0 ≤ blk.height) (hlt : blk.height < 4294967296) :
    getTipOperation blk true =
      .ok ⟨.put, tipKey, hashBytes ++ be32 blk.height.toNat⟩ ∧
    bytesToHexStr ((hashBytes ++ be32 blk.height.toNat).take 32) = blk.hash ∧
    readUInt32BE (hashBytes ++ be32 blk.height.toNat) 32 = .ok blk.height.toNat := by
  have hfb : bufferFromHex blk.hash = hashBytes := by
    rw [hhash]
    exact hexToBytes_bytesToHexChars hashBytes hbytes
  have htake : (hashBytes ++ be32 blk.height.toNat).take 32 = hashBytes := by
    rw [← hlen]
    exact List.take_left _ _
  have hdrop : (hashBytes ++ be32 blk.height.toNat).drop 32 = be32 blk.height.toNat := by
    rw [← hlen]
    exact List.drop_left _ _
  have hv : blk.height.toNat < 4294967296 := by omega
  refine ⟨?_, ?_, ?_⟩
  · rw [← hfb]
    simp [getTipOperation, writeUInt32BE_ok blk.height h0 hlt]
  · rw [htake, hhash]
  · unfold readUInt32BE
    rw [hdrop]
    simp [be32]
    omega

/-- Witness for C6 at a concrete 32-byte hash and height 9. -/
theorem c6_tip_record_roundtrip_witness :
    getTipOperation ⟨bytesToHexStr (List.replicate 32 171), [], 9⟩ true =
      .ok ⟨.put, tipKey, List.replicate 32 171 ++ be32 ((9 : Int)).toNat⟩ ∧
    bytesToHexStr ((List.replicate 32 171 ++ be32 ((9 : Int)).toNat).take 32) =
      bytesToHexStr (List.replicate 32 171) ∧
    readUInt32BE (List.replicate 32 171 ++ be32 ((9 : Int)).toNat) 32 =
      .ok ((9 : Int)).toNat :=
  c6_tip_record_roundtrip ⟨bytesToHexStr (List.replicate 32 171), [], 9⟩
    (List.replicate 32 171) rfl (by decide) (by decide) (by decide) (by decide)

/-! ## Helper lemmas about the block applier -/

theorem runBlockHandler_error {h : Option BlockHandler} {blk : Block} {add : Bool}
    {e : DbError} (herr : runBlockHandler h blk add = .error e) :
    ∃ f, h = some f ∧ f blk add = .error e := by
  cases h with
  | none => simp [runBlockHandler] at herr
  | some f =>
    cases hf : f blk add with
    | error e2 =>
      simp [runBlockHandler, hf] at herr
      exact ⟨f, rfl, by rw [hf, herr]⟩
    | ok o => cases o <;> simp [runBlockHandler, hf] at herr

theorem runBlockHandler_total (h : Option BlockHandler) (blk : Block) (add : Bool)
    (hok : ∀ f, h = some f → ∃ o, f blk add = .ok o) :
    ∃ ops, runBlockHandler h blk add = .ok ops := by
  cases h with
  | none => exact ⟨[], rfl⟩
  | some f =>
    obtain ⟨o, ho⟩ := hok f rfl
    cases o with
    | none => exact ⟨[], by simp [runBlockHandler, ho]⟩
    | some ops => exact ⟨ops, by simp [runBlockHandler, ho]⟩

theorem getConcurrentBlockOperations_error (blk : Block) (add : Bool) :
    ∀ (services : List Service) (e : DbError),
      getConcurrentBlockOperations services blk add = .error e →
      ∃ svc ∈ services, ∃ f, svc.concurrentBlockHandler = some f ∧ f blk add = .error e := by
  intro services
  induction services with
  | nil => intro e h; simp [getConcurrentBlockOperations] at h
  | cons svc rest ih =>
    intro e h
    unfold getConcurrentBlockOperations at h
    cases hr : runBlockHandler svc.concurrentBlockHandler blk add with
    | error e2 =>
      rw [hr] at h
      simp at h
      obtain ⟨f, hf, herr⟩ := runBlockHandler_error hr
      exact ⟨svc, by simp, f, hf, by rw [herr, h]⟩
    | ok ops =>
      rw [hr] at h
      cases hrest : getConcurrentBlockOperations rest blk add with
      | error e2 =>
        rw [hrest] at h
        simp at h
        obtain ⟨svc2, hmem, f, hf, herr⟩ := ih e2 hrest
        exact ⟨svc2, by simp [hmem], f, hf, by rw [herr, h]⟩
      | ok restOps =>
        rw [hrest] at h
        simp at h

theorem getSerialBlockOperations_error (blk : Block) (add : Bool) :
    ∀ (services : List Service) (e : DbError),
      getSerialBlockOperations services blk add = .error e →
      ∃ svc ∈ services, ∃ f, svc.blockHandler = some f ∧ f blk add = .error e := by
  intro services
  induction services with
  | nil => intro e h; simp [getSerialBlockOperations] at h
  | cons svc rest ih =>
    intro e h
    unfold getSerialBlockOperations at h
    cases hr : runBlockHandler svc.blockHandler blk add with
    | error e2 =>
      rw [hr] at h
      simp at h
      obtain ⟨f, hf, herr⟩ := runBlockHandler_error hr
      exact ⟨svc, by simp, f, hf, by rw [herr, h]⟩
    | ok ops =>
      rw [hr] at h
      cases hrest : getSerialBlockOperations rest blk add with
      | error e2 =>
        rw [hrest] at h
        simp at h
        obtain ⟨svc2, hmem, f, hf, herr⟩ := ih e2 hrest
        exact ⟨svc2, by simp [hmem], f, hf, by rw [herr, h]⟩
      | ok restOps =>
        rw [hrest] at h
        simp at h

theorem getConcurrentBlockOperations_total (blk : Block) (add : Bool) :
    ∀ services : List Service,
      (∀ svc ∈ services, ∀ f, svc.concurrentBlockHandler = some f →
         ∃ o, f blk add = .ok o) →
      ∃ ops, getConcurrentBlockOperations services blk add = .ok ops := by
  intro services
  induction services with
  | nil => intro _; exact ⟨[], rfl⟩
  | cons svc rest ih =>
    intro h
    obtain ⟨ops, hops⟩ :=
      runBlockHandler_total svc.concurrentBlockHandler blk add
        (fun f hf => h svc (by simp) f hf)
    obtain ⟨restOps, hrest⟩ := ih (fun s hs f hf => h s (by simp [hs]) f hf)
    exact ⟨ops ++ restOps, by
      unfold getConcurrentBlockOperations
      rw [hops, hrest]⟩

theorem getSerialBlockOperations_total (blk : Block) (add : Bool) :
    ∀ services : List Service,
      (∀ svc ∈ services, ∀ f, svc.blockHandler = some f → ∃ o, f blk add = .ok o) →
      ∃ ops, getSerialBlockOperations services blk add = .ok ops := by
  intro services
  induction services with
  | nil => intro _; exact ⟨[], rfl⟩
  | cons svc rest ih =>
    intro h
    obtain ⟨ops, hops⟩ :=
      runBlockHandler_total svc.blockHandler blk add (fun f hf => h svc (by simp) f hf)
    obtain ⟨restOps, hrest⟩ := ih (fun s hs f hf => h s (by simp [hs]) f hf)
    exact ⟨ops ++ restOps, by
      unfold getSerialBlockOperations
      rw [hops, hrest]⟩

theorem getConcurrentBlockOperations_ok_forall (blk : Block) (add : Bool) :
    ∀ (services : List Service) ops,
      getConcurrentBlockOperations services blk add = .ok ops →
      ∀ svc ∈ services, ∀ f, svc.concurrentBlockHandler = some f →
        ∀ e, f blk add ≠ .error e := by
  intro services
  induction services with
  | nil =>
    intro ops h svc hmem
    simp at hmem
  | cons s rest ih =>
    intro ops h svc hmem f hf e he
    unfold getConcurrentBlockOperations at h
    cases hr : runBlockHandler s.concurrentBlockHandler blk add with
    | error e2 =>
      rw [hr] at h
      simp at h
    | ok o1 =>
      rw [hr] at h
      cases hrest : getConcurrentBlockOperations rest blk add with
      | error e2 =>
        rw [hrest] at h
        simp at h
      | ok o2 =>
        rcases List.mem_cons.mp hmem with hsvc | hsvc
        · subst hsvc
          rw [hf] at hr
          simp [runBlockHandler, he] at hr
        · exact ih o2 hrest svc hsvc f hf e he

theorem getSerialBlockOperations_ok_forall (blk : Block) (add : Bool) :
    ∀ (services : List Service) ops,
      getSerialBlockOperations services blk add = .ok ops →
      ∀ svc ∈ services, ∀ f, svc.blockHandler = some f →
        ∀ e, f blk add ≠ .error e := by
  intro services
  induction services with
  | nil =>
    intro ops h svc hmem
    simp at hmem
  | cons s rest ih =>
    intro ops h svc hmem f hf e he
    unfold getSerialBlockOperations at h
    cases hr : runBlockHandler s.blockHandler blk add with
    | error e2 =>
      rw [hr] at h
      simp at h
    | ok o1 =>
      rw [hr] at h
      cases hrest : getSerialBlockOperations rest blk add with
      | error e2 =>
        rw [hrest] at h
        simp at h
      | ok o2 =>
        rcases List.mem_cons.mp hmem with hsvc | hsvc
        · subst hsvc
          rw [hf] at hr
          simp [runBlockHandler, he] at hr
        · exact ih o2 hrest svc hsvc f hf e he

/-! ## C1: block apply is all-or-nothing -/

/-- C1: for every block and either direction, the block applier gathers
all concurrent-handler operations, then all serial-handler operations,
appends the serial-tip and concurrent-tip puts, and submits them as one
single store batch; if a gather aborts, the apply returns that error,
submits no batch, and leaves the store unchanged; every gather error is
some handler's error, and when every handler succeeds the gathers
succeed. -/
theorem c1_block_apply_atomicity (services : List Service) (blk : Block) (store : Store) :
    (∀ concurrentOps serialOps tipOp concurrentTipOp,
       getConcurrentBlockOperations services blk true = .ok concurrentOps →
       getSerialBlockOperations services blk true = .ok serialOps →
       getTipOperation blk true = .ok tipOp →
       getConcurrentTipOperation blk true = .ok concurrentTipOp →
       connectBlock services blk store =
         (.ok (), store.applyBatch (concurrentOps ++ serialOps ++ [tipOp, concurrentTipOp]),
          [concurrentOps ++ serialOps ++ [tipOp, concurrentTipOp]])) ∧
    (∀ e, getConcurrentBlockOperations services blk true = .error e →
       connectBlock services blk store = (.error e, store, [])) ∧
    (∀ concurrentOps e,
       getConcurrentBlockOperations services blk true = .ok concurrentOps →
       getSerialBlockOperations services blk true = .error e →
       connectBlock services blk store = (.error e, store, [])) ∧
    (∀ (add : Bool) e, getConcurrentBlockOperations services blk add = .error e →
       ∃ svc ∈ services, ∃ f, svc.concurrentBlockHandler = some f ∧ f blk add = .error e) ∧
    (∀ (add : Bool) e, getSerialBlockOperations services blk add = .error e →
       ∃ svc ∈ services, ∃ f, svc.blockHandler = some f ∧ f blk add = .error e) ∧
    (∀ add : Bool,
       (∀ svc ∈ services, ∀ f, svc.concurrentBlockHandler = some f →
          ∃ o, f blk add = .ok o) →
       ∃ ops, getConcurrentBlockOperations services blk add = .ok ops) ∧
    (∀ add : Bool,
       (∀ svc ∈ services, ∀ f, svc.blockHandler = some f → ∃ o, f blk add = .ok o) →
       ∃ ops, getSerialBlockOperations services blk add = .ok ops) ∧
    (∀ concurrentOps serialOps tipOp concurrentTipOp,
       getConcurrentBlockOperations services blk false = .ok concurrentOps →
       getSerialBlockOperations services blk false = .ok serialOps →
       getTipOperation blk false = .ok tipOp →
       getConcurrentTipOperation blk false = .ok concurrentTipOp →
       disconnectBlock services blk store =
         (.ok (), store.applyBatch (concurrentOps ++ serialOps ++ [tipOp, concurrentTipOp]),
          [concurrentOps ++ serialOps ++ [tipOp, concurrentTipOp]])) ∧
    (∀ e, getConcurrentBlockOperations services blk false = .error e →
       disconnectBlock services blk store = (.error e, store, [])) ∧
    (∀ concurrentOps e,
       getConcurrentBlockOperations services blk false = .ok concurrentOps →
       getSerialBlockOperations services blk false = .error e →
       disconnectBlock services blk store = (.error e, store, [])) ∧
    (∀ (add : Bool) svc f e, svc ∈ services →
       (svc.concurrentBlockHandler = some f ∨ svc.blockHandler = some f) →
       f blk add = .error e →
       ∃ e2,
         (if add then connectBlock services blk store
          else disconnectBlock services blk store) = (.error e2, store, []) ∧
         ∃ svc2 ∈ services, ∃ g,
           (svc2.concurrentBlockHandler = some g ∨ svc2.blockHandler = some g) ∧
           g blk add = .error e2) := by
  refine ⟨fun cOps sOps tOp ctOp hc hs ht hct => ?_,
    fun e hc => ?_, fun cOps e hc hs => ?_,
    fun add e h => getConcurrentBlockOperations_error blk add services e h,
    fun add e h => getSerialBlockOperations_error blk add services e h,
    fun add h => getConcurrentBlockOperations_total blk add services h,
    fun add h => getSerialBlockOperations_total blk add services h,
    fun cOps sOps tOp ctOp hc hs ht hct => ?_,
    fun e hc => ?_, fun cOps e hc hs => ?_, fun add svc f e hmem hf he => ?_⟩
  · simp [connectBlock, hc, hs, ht, hct]
  · simp [connectBlock, hc]
  · simp [connectBlock, hc, hs]
  · simp [disconnectBlock, hc, hs, ht, hct]
  · simp [disconnectBlock, hc]
  · simp [disconnectBlock, hc, hs]
  · cases hc : getConcurrentBlockOperations services blk add with
    | error e2 =>
      obtain ⟨svc2, hm2, g, hg, hge⟩ :=
        getConcurrentBlockOperations_error blk add services e2 hc
      cases add with
      | true => exact ⟨e2, by simp [connectBlock, hc], svc2, hm2, g, Or.inl hg, hge⟩
      | false => exact ⟨e2, by simp [disconnectBlock, hc], svc2, hm2, g, Or.inl hg, hge⟩
    | ok cOps =>
      cases hs : getSerialBlockOperations services blk add with
      | error e2 =>
        obtain ⟨svc2, hm2, g, hg, hge⟩ :=
          getSerialBlockOperations_error blk add services e2 hs
        cases add with
        | true => exact ⟨e2, by simp [connectBlock, hc, hs], svc2, hm2, g, Or.inr hg, hge⟩
        | false => exact ⟨e2, by simp [disconnectBlock, hc, hs], svc2, hm2, g, Or.inr hg, hge⟩
      | ok sOps =>
        exfalso
        rcases hf with hcf | hsf
        · exact getConcurrentBlockOperations_ok_forall blk add services cOps hc
            svc hmem f hcf e he
        · exact getSerialBlockOperations_ok_forall blk add services sOps hs
            svc hmem f hsf e he

/-- Witness for C1: a one-service registry whose handlers return one put
each, a failing-serial-handler registry, and a concrete block. -/
theorem c1_block_apply_atomicity_witness :
    connectBlock
        [⟨some (fun _ _ => .ok (some [⟨.put, [9], [1]⟩])),
          some (fun _ _ => .ok (some [⟨.put, [8], [2]⟩]))⟩]
        ⟨"ab", [], 1⟩ emptyStore =
      (.ok (),
       emptyStore.applyBatch
         ([⟨.put, [9], [1]⟩] ++ [⟨.put, [8], [2]⟩] ++
          [⟨.put, tipKey, bufferFromHex "ab" ++ be32 1⟩,
           ⟨.put, concurrentTipKey, bufferFromHex "ab" ++ be32 1⟩]),
       [[⟨.put, [9], [1]⟩] ++ [⟨.put, [8], [2]⟩] ++
        [⟨.put, tipKey, bufferFromHex "ab" ++ be32 1⟩,
         ⟨.put, concurrentTipKey, bufferFromHex "ab" ++ be32 1⟩]]) ∧
    connectBlock
        [⟨some (fun _ _ => .ok none), some (fun _ _ => .error (.err "boom"))⟩]
        ⟨"ab", [], 1⟩ emptyStore =
      (.error (.err "boom"), emptyStore, []) := by
  constructor
  · exact (c1_block_apply_atomicity
      [⟨some (fun _ _ => .ok (some [⟨.put, [9], [1]⟩])),
        some (fun _ _ => .ok (some [⟨.put, [8], [2]⟩]))⟩]
      ⟨"ab", [], 1⟩ emptyStore).1
      [⟨.put, [9], [1]⟩] [⟨.put, [8], [2]⟩]
      ⟨.put, tipKey, bufferFromHex "ab" ++ be32 1⟩
      ⟨.put, concurrentTipKey, bufferFromHex "ab" ++ be32 1⟩
      rfl rfl rfl rfl
  · exact (c1_block_apply_atomicity
      [⟨some (fun _ _ => .ok none), some (fun _ _ => .error (.err "boom"))⟩]
      ⟨"ab", [], 1⟩ emptyStore).2.2.1
      [] (.err "boom") rfl rfl

/-! ## C10: serial and concurrent tip records agree -/

theorem tip_ops_agree {blk : Block} {add : Bool} {o1 o2 : BatchOp}
    (h1 : getTipOperation blk add = .ok o1)
    (h2 : getConcurrentTipOperation blk add = .ok o2) :
    o1.type = .put ∧ o1.key = tipKey ∧ o2.type = .put ∧
    o2.key = concurrentTipKey ∧ o1.value = o2.value := by
  cases add with
  | true =>
    simp [getTipOperation] at h1
    simp [getConcurrentTipOperation] at h2
    cases hw : writeUInt32BE blk.height with
    | error e =>
      rw [hw] at h1
      simp at h1
    | ok hb =>
      rw [hw] at h1 h2
      simp at h1 h2
      subst h1
      subst h2
      simp
  | false =>
    simp [getTipOperation] at h1
    simp [getConcurrentTipOperation] at h2
    cases hw : writeUInt32BE (blk.height - 1) with
    | error e =>
      rw [hw] at h1
      simp at h1
    | ok hb =>
      rw [hw] at h1 h2
      simp at h1 h2
      subst h1
      subst h2
      simp

theorem applyBatch_tip_puts (store : Store) (l : List BatchOp) (o1 o2 : BatchOp)
    (h1t : o1.type = .put) (h2t : o2.type = .put) (hne : o1.key ≠ o2.key) :
    (store.applyBatch (l ++ [o1, o2])).get o2.key = some o2.value ∧
    (store.applyBatch (l ++ [o1, o2])).get o1.key = some o1.value := by
  have hsplit : store.applyBatch (l ++ [o1, o2]) =
      ((store.applyBatch l).applyOp o1).applyOp o2 := by
    simp [Store.applyBatch, List.foldl_append]
  have e1 : (store.applyBatch l).applyOp o1 = (store.applyBatch l).put o1.key o1.value := by
    simp [Store.applyOp, h1t]
  have e2 : ∀ s : Store, s.applyOp o2 = s.put o2.key o2.value := fun s => by
    simp [Store.applyOp, h2t]
  rw [hsplit, e1, e2]
  exact ⟨store_get_put_self .., by
    rw [store_get_put_ne _ _ hne]
    exact store_get_put_self ..⟩

/-- C10: in every batch submitted by `connectBlock` or `disconnectBlock`
the values written under the tip key and the concurrent-tip key are
byte-identical, so after any successful block commit the serial tip
record equals the concurrent tip record (and both are present). -/
theorem c10_tip_records_equal (services : List Service) (blk : Block) (store : Store) :
    (∀ st ops, connectBlock services blk store = (.ok (), st, ops) →
       st.get tipKey = st.get concurrentTipKey ∧ (st.get tipKey).isSome) ∧
    (∀ st ops, disconnectBlock services blk store = (.ok (), st, ops) →
       st.get tipKey = st.get concurrentTipKey ∧ (st.get tipKey).isSome) := by
  constructor
  · intro st ops h
    unfold connectBlock at h
    cases hc : getConcurrentBlockOperations services blk true with
    | error e => rw [hc] at h; simp at h
    | ok cOps =>
      rw [hc] at h
      cases hs : getSerialBlockOperations services blk true with
      | error e => rw [hs] at h; simp at h
      | ok sOps =>
        rw [hs] at h
        cases ht : getTipOperation blk true with
        | error e => rw [ht] at h; simp at h
        | ok tOp =>
          rw [ht] at h
          cases hct : getConcurrentTipOperation blk true with
          | error e => rw [hct] at h; simp at h
          | ok ctOp =>
            rw [hct] at h
            simp at h
            obtain ⟨h1t, hk1, h2t, hk2, hv⟩ := tip_ops_agree ht hct
            have hkne : tOp.key ≠ ctOp.key := by
              rw [hk1, hk2]
              decide
            have hb := applyBatch_tip_puts store (cOps ++ sOps) tOp ctOp h1t h2t hkne
            rw [List.append_assoc] at hb
            rw [← h.1, hk1, hk2] at *
            rw [hb.2, hb.1, hv]
            simp
  · intro st ops h
    unfold disconnectBlock at h
    cases hc : getConcurrentBlockOperations services blk false with
    | error e => rw [hc] at h; simp at h
    | ok cOps =>
      rw [hc] at h
      cases hs : getSerialBlockOperations services blk false with
      | error e => rw [hs] at h; simp at h
      | ok sOps =>
        rw [hs] at h
        cases ht : getTipOperation blk false with
        | error e => rw [ht] at h; simp at h
        | ok tOp =>
          rw [ht] at h
          cases hct : getConcurrentTipOperation blk false with
          | error e => rw [hct] at h; simp at h
          | ok ctOp =>
            rw [hct] at h
            simp at h
            obtain ⟨h1t, hk1, h2t, hk2, hv⟩ := tip_ops_agree ht hct
            have hkne : tOp.key ≠ ctOp.key := by
              rw [hk1, hk2]
              decide
            have hb := applyBatch_tip_puts store (cOps ++ sOps) tOp ctOp h1t h2t hkne
            rw [List.append_assoc] at hb
            rw [← h.1, hk1, hk2] at *
            rw [hb.2, hb.1, hv]
            simp

/-- Witness for C10 at a concrete connect of a height-1 block. -/
theorem c10_tip_records_equal_witness :
    ((connectBlock [] ⟨"ab", [], 1⟩ emptyStore).2.1.get tipKey =
      (connectBlock [] ⟨"ab", [], 1⟩ emptyStore).2.1.get concurrentTipKey) ∧
    ((connectBlock [] ⟨"ab", [], 1⟩ emptyStore).2.1.get tipKey).isSome :=
  (c10_tip_records_equal [] ⟨"ab", [], 1⟩ emptyStore).1
    (connectBlock [] ⟨"ab", [], 1⟩ emptyStore).2.1
    (connectBlock [] ⟨"ab", [], 1⟩ emptyStore).2.2 (by decide)

/-! ## C8: concurrent-tip load vs serial-tip load -/

/-- C8: evaluation of the two tip loads.  With the tip key absent,
`loadTip` sets the tip to genesis at height 0, connects it, and invokes
its callback; with the concurrent-tip key absent, `loadConcurrentTip`
sets the concurrent tip to genesis at height 0 but returns without ever
invoking its callback (the source lacks the `callback()` call), so the
load never completes — contradicting the claimed symmetry.  With the key
present, the named block is fetched upstream with up to three attempts:
a success on the last attempt completes the load with the stored height,
and three failures invoke the callback with the final error. -/
theorem c8_load_concurrent_tip_divergence :
    (loadTip [] ⟨"ab", [], 99⟩ (fun _ _ => .error .notFound) emptyStore).outcome =
      .callbackOk ∧
    (loadTip [] ⟨"ab", [], 99⟩ (fun _ _ => .error .notFound) emptyStore).tip =
      some ⟨"ab", [], 0⟩ ∧
    (loadConcurrentTip ⟨"ab", [], 99⟩ (fun _ _ => .error .notFound) emptyStore).tip =
      some ⟨"ab", [], 0⟩ ∧
    (loadConcurrentTip ⟨"ab", [], 99⟩ (fun _ _ => .error .notFound) emptyStore).outcome =
      .hang ∧
    (loadConcurrentTip ⟨"ab", [], 99⟩
        (fun h n => if n = 2 then .ok ⟨h, [], 0⟩ else .error .notFound)
        ⟨[(concurrentTipKey, List.replicate 32 17 ++ [0, 0, 1, 0])]⟩).outcome =
      .callbackOk ∧
    (loadConcurrentTip ⟨"ab", [], 99⟩
        (fun h n => if n = 2 then .ok ⟨h, [], 0⟩ else .error .notFound)
        ⟨[(concurrentTipKey, List.replicate 32 17 ++ [0, 0, 1, 0])]⟩).tip =
      some ⟨bytesToHexStr (List.replicate 32 17), [], 256⟩ ∧
    (loadConcurrentTip ⟨"ab", [], 99⟩ (fun _ _ => .error (.err "gone"))
        ⟨[(concurrentTipKey, List.replicate 32 17 ++ [0, 0, 1, 0])]⟩).outcome =
      .callbackErr (.err "gone") := by
  decide

/-! ## Helper lemmas for the transaction value codec -/

theorem drop_of_prefix_len {α : Type} (pre suf : List α) {off : Nat}
    (h : pre.length = off) : (pre ++ suf).drop off = suf := by
  subst h
  exact List.drop_left _ _

theorem writeDoubles_length (l : List Nat) :
    (writeDoubles l).length = l.length * 8 := by
  induction l with
  | nil => rfl
  | cons v t ih => simp [writeDoubles, writeDoubleBE, ih]; ring

theorem readUInt32BE_at (b : Buffer) (off v : Nat) (rest : Buffer)
    (hv : v < 4294967296) (hdrop : b.drop off = be32 v ++ rest) :
    readUInt32BE b off = .ok v := by
  unfold readUInt32BE
  rw [hdrop]
  simp [be32]
  omega

theorem readUInt16BE_at (b : Buffer) (off v : Nat) (rest : Buffer)
    (hdrop : b.drop off = enc16 v ++ rest) :
    readUInt16BE b off = .ok v := by
  unfold readUInt16BE
  rw [hdrop]
  simp [enc16]
  omega

theorem readDoubleBE_at (b : Buffer) (off v : Nat) (rest : Buffer)
    (hv : v < 18446744073709551616) (hdrop : b.drop off = writeDoubleBE v ++ rest) :
    readDoubleBE b off = .ok v := by
  unfold readDoubleBE
  rw [hdrop]
  simp [writeDoubleBE]
  omega

theorem readInputValues_spec (b : Buffer) (txb : Buffer) :
    ∀ (ivs : List Nat) (i : Nat),
      (∀ v ∈ ivs, v < 18446744073709551616) →
      b.drop (i * 8 + 14) = writeDoubles ivs ++ txb →
      readInputValues b i ivs.length = .ok ivs := by
  intro ivs
  induction ivs with
  | nil => intro i _ _; rfl
  | cons v t ih =>
    intro i hvs hdrop
    have hv : v < 18446744073709551616 := hvs v (by simp)
    have h1 : readDoubleBE b (i * 8 + 14) = .ok v :=
      readDoubleBE_at b _ v (writeDoubles t ++ txb) hv
        (by rw [hdrop]; simp [writeDoubles, List.append_assoc])
    have hdrop2 : b.drop ((i + 1) * 8 + 14) = writeDoubles t ++ txb := by
      have harith : (i + 1) * 8 + 14 = (i * 8 + 14) + 8 := by ring
      rw [harith, ← List.drop_drop, hdrop]
      simp [writeDoubles, writeDoubleBE]
    have ih2 := ih (i + 1) (fun x hx => hvs x (by simp [hx])) hdrop2
    show readInputValues b i (t.length + 1) = .ok (v :: t)
    unfold readInputValues
    rw [h1, ih2]

/-! ## C7: transaction record round-trip -/

/-- C7: for every transaction decorated with a u32 `__height`, a
`__timestamp`, and a list of `__inputValues` whose encoded byte length
fits the 16-bit length field, encoding produces
`heightBE32 ∥ timestampDoubleBE ∥ lenBE16 ∥ inputValueDoubles ∥ txBytes`,
and decoding that record yields a transaction with the same underlying
bytes, the same `__height`, the same `__timestamp` (as an IEEE-754
big-endian double bit pattern), and the same `__inputValues` list. -/
theorem c7_transaction_value_roundtrip (tx : Tx)
    (h0 : 0 ≤ tx.height) (hh : tx.height < 4294967296)
    (hts : tx.timestamp < 18446744073709551616)
    (hivs : ∀ v ∈ tx.inputValues, v < 18446744073709551616)
    (hlen : tx.inputValues.length * 8 ≤ 65535) :
    encodeTransactionValue tx =
      .ok (be32 tx.height.toNat ++ writeDoubleBE tx.timestamp ++
           enc16 (tx.inputValues.length * 8) ++ writeDoubles tx.inputValues ++
           tx.txBytes) ∧
    decodeTransactionValue
        (be32 tx.height.toNat ++ writeDoubleBE tx.timestamp ++
         enc16 (tx.inputValues.length * 8) ++ writeDoubles tx.inputValues ++
         tx.txBytes) =
      .ok tx := by
  obtain ⟨txb, ht, ts, ivs⟩ := tx
  simp only [] at h0 hh hts hivs hlen
  have hw16 : writeUInt16BE (ivs.length * 8) = .ok (enc16 (ivs.length * 8)) := by
    unfold writeUInt16BE
    rw [if_pos hlen]
  constructor
  · simp [encodeTransactionValue, writeUInt32BE_ok ht h0 hh, hw16]
  · have hassoc : be32 ht.toNat ++ writeDoubleBE ts ++ enc16 (ivs.length * 8) ++
        writeDoubles ivs ++ txb =
        be32 ht.toNat ++ (writeDoubleBE ts ++ (enc16 (ivs.length * 8) ++
          (writeDoubles ivs ++ txb))) := by
      simp [List.append_assoc]
    rw [hassoc]
    have hd0 : (be32 ht.toNat ++ (writeDoubleBE ts ++ (enc16 (ivs.length * 8) ++
        (writeDoubles ivs ++ txb)))).drop 0 =
        be32 ht.toNat ++ (writeDoubleBE ts ++ (enc16 (ivs.length * 8) ++
          (writeDoubles ivs ++ txb))) := by
      simp
    have hd4 : (be32 ht.toNat ++ (writeDoubleBE ts ++ (enc16 (ivs.length * 8) ++
        (writeDoubles ivs ++ txb)))).drop 4 =
        writeDoubleBE ts ++ (enc16 (ivs.length * 8) ++ (writeDoubles ivs ++ txb)) := by
      simp [be32]
    have hd12 : (be32 ht.toNat ++ (writeDoubleBE ts ++ (enc16 (ivs.length * 8) ++
        (writeDoubles ivs ++ txb)))).drop 12 =
        enc16 (ivs.length * 8) ++ (writeDoubles ivs ++ txb) := by
      simp [be32, writeDoubleBE]
    have hd14 : (be32 ht.toNat ++ (writeDoubleBE ts ++ (enc16 (ivs.length * 8) ++
        (writeDoubles ivs ++ txb)))).drop (0 * 8 + 14) = writeDoubles ivs ++ txb := by
      simp [be32, writeDoubleBE, enc16]
    have h32 := readUInt32BE_at _ 0 ht.toNat _ (by omega) hd0
    have hdb := readDoubleBE_at _ 4 ts _ hts hd4
    have h16 := readUInt16BE_at _ 12 (ivs.length * 8) _ hd12
    have hloop := readInputValues_spec _ txb ivs 0 hivs hd14
    have hdropfinal : (be32 ht.toNat ++ (writeDoubleBE ts ++ (enc16 (ivs.length * 8) ++
        (writeDoubles ivs ++ txb)))).drop (ivs.length * 8 + 14) = txb := by
      have harith : ivs.length * 8 + 14 = (0 * 8 + 14) + ivs.length * 8 := by ring
      rw [harith, ← List.drop_drop, hd14,
        drop_of_prefix_len _ _ (writeDoubles_length ivs)]
    have hcount : ivs.length * 8 / 8 = ivs.length := by omega
    simp [decodeTransactionValue, h32, hdb, h16, hcount, hloop, hdropfinal,
      Int.toNat_of_nonneg h0]

/-- Witness for C7 at a concrete decorated transaction. -/
theorem c7_transaction_value_roundtrip_witness :
    encodeTransactionValue ⟨[9, 9], 3, 77, [5]⟩ =
      .ok (be32 ((3 : Int)).toNat ++ writeDoubleBE 77 ++ enc16 (([5] : List Nat).length * 8) ++
           writeDoubles [5] ++ [9, 9]) ∧
    decodeTransactionValue
        (be32 ((3 : Int)).toNat ++ writeDoubleBE 77 ++ enc16 (([5] : List Nat).length * 8) ++
         writeDoubles [5] ++ [9, 9]) =
      .ok ⟨[9, 9], 3, 77, [5]⟩ :=
  c7_transaction_value_roundtrip ⟨[9, 9], 3, 77, [5]⟩
    (by decide) (by decide) (by decide) (by decide) (by decide)

/-! ## Helper lemmas about the prefix allocator -/

theorem enc16_inj {v w : Nat} (h : enc16 v = enc16 w) : v = w := by
  simp [enc16] at h
  omega

theorem getPrefix_hit (st : Store) (name : String) (b : Buffer)
    (h : st.get (prefixKey name) = some b) :
    getPrefix name st = (.ok b, st) := by
  simp [ getPrefix, h]

theorem getPrefix_spec (name : String) (st : Store) :
    (∃ b, st.get (prefixKey name) = some b ∧ getPrefix name st = (.ok b, st)) ∨
    (st.get (prefixKey name) = none ∧
     ∃ e, readUInt16BE ((st.get nextUnusedKey).getD [0, 1]) 0 = .error e ∧
       getPrefix name st =
         (.error e, st.put (prefixKey name) ((st.get nextUnusedKey).getD [0, 1]))) ∨
    (st.get (prefixKey name) = none ∧
     ∃ v, readUInt16BE ((st.get nextUnusedKey).getD [0, 1]) 0 = .ok v ∧ v + 1 ≤ 65535 ∧
       getPrefix name st =
         (.ok ((st.get nextUnusedKey).getD [0, 1]),
          (st.put (prefixKey name) ((st.get nextUnusedKey).getD [0, 1])).put
            nextUnusedKey (enc16 (v + 1)))) ∨
    (st.get (prefixKey name) = none ∧
     ∃ v, readUInt16BE ((st.get nextUnusedKey).getD [0, 1]) 0 = .ok v ∧ 65535 < v + 1 ∧
       getPrefix name st =
         (.error .rangeError,
          st.put (prefixKey name) ((st.get nextUnusedKey).getD [0, 1]))) := by
  cases hp : st.get (prefixKey name) with
  | some b => exact Or.inl ⟨b, rfl, getPrefix_hit st name b hp⟩
  | none =>
    cases hr : readUInt16BE ((st.get nextUnusedKey).getD [0, 1]) 0 with
    | error e =>
      exact Or.inr (Or.inl ⟨rfl, e, rfl, by simp [ getPrefix, hp, hr]⟩)
    | ok v =>
      by_cases hb : v + 1 ≤ 65535
      · refine Or.inr (Or.inr (Or.inl ⟨rfl, v, rfl, hb, ?_⟩))
        simp [ getPrefix, hp, hr, writeUInt16BE, hb]
      · refine Or.inr (Or.inr (Or.inr ⟨rfl, v, rfl, by omega, ?_⟩))
        simp [ getPrefix, hp, hr, writeUInt16BE, hb]

theorem getPrefix_overflow_step (st : Store) (name : String)
    (hmiss : st.get (prefixKey name) = none)
    (hnext : st.get nextUnusedKey = some (enc16 65535)) :
    getPrefix name st = (.error .rangeError, st.put (prefixKey name) (enc16 65535)) := by
  simp [ getPrefix, hmiss, hnext, readUInt16BE_enc16, writeUInt16BE]

theorem getPrefix_preserves_assignment (st : Store) (caller name : String)
    (b : Buffer) (h : st.get (prefixKey name) = some b) :
    (( getPrefix caller st).2).get (prefixKey name) = some b := by
  rcases getPrefix_spec caller st with ⟨b2, hp, heq⟩ | ⟨hp, e, hr, heq⟩ |
    ⟨hp, v, hr, hle, heq⟩ | ⟨hp, v, hr, hlt, heq⟩
  · rw [heq]
    exact h
  · rw [heq]
    have hne : prefixKey name ≠ prefixKey caller := by
      intro hh
      rw [← hh, h] at hp
      simp at hp
    rw [store_get_put_ne _ _ hne]
    exact h
  · rw [heq]
    have hne : prefixKey name ≠ prefixKey caller := by
      intro hh
      rw [← hh, h] at hp
      simp at hp
    rw [store_get_put_ne _ _ (Ne.symm (nextUnusedKey_ne_prefixKey name)),
      store_get_put_ne _ _ hne]
    exact h
  · rw [heq]
    have hne : prefixKey name ≠ prefixKey caller := by
      intro hh
      rw [← hh, h] at hp
      simp at hp
    rw [store_get_put_ne _ _ hne]
    exact h

theorem put_put_get_prefixKey (st : Store) (name : String) (buf nb : Buffer)
    (m : String) :
    ((st.put (prefixKey name) buf).put nextUnusedKey nb).get (prefixKey m) =
      if m = name then some buf else st.get (prefixKey m) := by
  by_cases hm : m = name
  · rw [if_pos hm, hm, store_get_put_ne _ _ (Ne.symm (nextUnusedKey_ne_prefixKey name))]
    exact store_get_put_self ..
  · rw [if_neg hm, store_get_put_ne _ _ (Ne.symm (nextUnusedKey_ne_prefixKey m)),
      store_get_put_ne _ _ (fun hh => hm (prefixKey_injective hh))]

theorem getPrefix_ok_value (st : Store) (name : String) (b : Buffer)
    (hok : ( getPrefix name st).1 = .ok b) :
    (( getPrefix name st).2).get (prefixKey name) = some b := by
  rcases getPrefix_spec name st with ⟨b2, hp, heq⟩ | ⟨hp, e, hr, heq⟩ |
    ⟨hp, v, hr, hle, heq⟩ | ⟨hp, v, hr, hlt, heq⟩
  · rw [heq] at hok ⊢
    simp at hok
    exact hok ▸ hp
  · rw [heq] at hok
    simp at hok
  · rw [heq] at hok ⊢
    simp at hok
    rw [put_put_get_prefixKey, if_pos rfl, hok]
  · rw [heq] at hok
    simp at hok

theorem prefixInvariant_empty : PrefixInvariant emptyStore := by
  refine ⟨fun n1 n2 b h1 _ => ?_, ?_⟩
  · simp [Store.get, emptyStore, List.lookup] at h1
  · exact fun _ => rfl

theorem fresh_preserves_invariant (st : Store) (name : String) (v : Nat)
    (hr : readUInt16BE ((st.get nextUnusedKey).getD [0, 1]) 0 = .ok v)
    (hle : v + 1 ≤ 65535)
    (hinv : PrefixInvariant st) :
    PrefixInvariant
      ((st.put (prefixKey name) ((st.get nextUnusedKey).getD [0, 1])).put
        nextUnusedKey (enc16 (v + 1))) := by
  obtain ⟨hinj, hnu⟩ := hinv
  cases hcase : st.get nextUnusedKey with
  | none =>
    rw [hcase] at hnu hr
    have hall : ∀ m, st.get (prefixKey m) = none := hnu
    simp [readUInt16BE] at hr
    subst hr
    refine ⟨fun n1 n2 c h1 h2 => ?_, ?_⟩
    · rw [put_put_get_prefixKey] at h1 h2
      by_cases h1n : n1 = name <;> by_cases h2n : n2 = name
      · rw [h1n, h2n]
      · rw [if_neg h2n, hall n2] at h2
        cases h2
      · rw [if_neg h1n, hall n1] at h1
        cases h1
      · rw [if_neg h1n, hall n1] at h1
        cases h1
    · rw [store_get_put_self]
      refine ⟨1 + 1, by omega, rfl, fun m c hmc => ?_⟩
      rw [put_put_get_prefixKey] at hmc
      by_cases hmn : m = name
      · rw [if_pos hmn] at hmc
        exact ⟨1, by simpa [enc16] using hmc.symm, by omega⟩
      · rw [if_neg hmn, hall m] at hmc
        cases hmc
  | some u =>
    rw [hcase] at hnu hr
    have hex : ∃ v0, v0 ≤ 65535 ∧ u = enc16 v0 ∧
        ∀ m c, st.get (prefixKey m) = some c → ∃ w, c = enc16 w ∧ w < v0 := hnu
    obtain ⟨v0, hv0, hu, hall⟩ := hex
    subst hu
    simp only [Option.getD_some] at hr
    rw [readUInt16BE_enc16] at hr
    simp at hr
    subst hr
    refine ⟨fun n1 n2 c h1 h2 => ?_, ?_⟩
    · rw [put_put_get_prefixKey] at h1 h2
      by_cases h1n : n1 = name <;> by_cases h2n : n2 = name
      · rw [h1n, h2n]
      · rw [if_pos h1n] at h1
        rw [if_neg h2n] at h2
        obtain ⟨w, hw, hwlt⟩ := hall n2 c h2
        have hc : c = enc16 v0 := by
          simpa using h1.symm
        rw [hc] at hw
        have := enc16_inj hw
        omega
      · rw [if_pos h2n] at h2
        rw [if_neg h1n] at h1
        obtain ⟨w, hw, hwlt⟩ := hall n1 c h1
        have hc : c = enc16 v0 := by
          simpa using h2.symm
        rw [hc] at hw
        have := enc16_inj hw
        omega
      · rw [if_neg h1n] at h1
        rw [if_neg h2n] at h2
        exact hinj n1 n2 c h1 h2
    · rw [store_get_put_self]
      refine ⟨v0 + 1, hle, rfl, fun m c hmc => ?_⟩
      rw [put_put_get_prefixKey] at hmc
      by_cases hmn : m = name
      · rw [if_pos hmn] at hmc
        exact ⟨v0, by simpa using hmc.symm, by omega⟩
      · rw [if_neg hmn] at hmc
        obtain ⟨w, hw, hwlt⟩ := hall m c hmc
        exact ⟨w, hw, by omega⟩

theorem getPrefix_ok_preserves (st : Store) (name : String) (b : Buffer)
    (hinv : PrefixInvariant st) (hok : ( getPrefix name st).1 = .ok b) :
    PrefixInvariant (( getPrefix name st).2) := by
  rcases getPrefix_spec name st with ⟨b2, hp, heq⟩ | ⟨hp, e, hr, heq⟩ |
    ⟨hp, v, hr, hle, heq⟩ | ⟨hp, v, hr, hlt, heq⟩
  · rw [heq]
    exact hinv
  · rw [heq] at hok
    simp at hok
  · rw [heq]
    exact fresh_preserves_invariant st name v hr hle hinv
  · rw [heq] at hok
    simp at hok

theorem okReachable_invariant {st : Store} (h : OkReachableStore st) :
    PrefixInvariant st := by
  induction h with
  | base => exact prefixInvariant_empty
  | step s name b _ hok ih => exact getPrefix_ok_preserves s name b ih hok

/-! ## C2: prefix uniqueness -/

/-- C2 (amended): starting from any store state reachable by an
error-free sequence of allocator calls, two sequential `getPrefix` calls
for distinct service names that both succeed return distinct prefixes;
moreover an assigned prefix is never overwritten by later calls.  (The
unamended claim, over all states the allocator can produce, fails once a
call errors on 16-bit exhaustion: the failed call leaves `nextUnused` at
`0xffff` while having assigned it, so a later call hands out `0xffff`
again.) -/
theorem c2_prefix_uniqueness_amended (st : Store) (hreach : OkReachableStore st)
    (n1 n2 : String) (b1 b2 : Buffer) (hne : n1 ≠ n2)
    (h1 : ( getPrefix n1 st).1 = .ok b1)
    (h2 : ( getPrefix n2 (( getPrefix n1 st).2)).1 = .ok b2) :
    b1 ≠ b2 ∧
    ∀ name b, st.get (prefixKey name) = some b →
      (( getPrefix n2 (( getPrefix n1 st).2)).2).get (prefixKey name) = some b := by
  have hs1 : OkReachableStore ( getPrefix n1 st).2 :=
    OkReachableStore.step st n1 b1 hreach h1
  have hs2reach : OkReachableStore ( getPrefix n2 (( getPrefix n1 st).2)).2 :=
    OkReachableStore.step _ n2 b2 hs1 h2
  have hinv2 := okReachable_invariant hs2reach
  have hv1 : (( getPrefix n1 st).2).get (prefixKey n1) = some b1 :=
    getPrefix_ok_value st n1 b1 h1
  have hv1b : (( getPrefix n2 (( getPrefix n1 st).2)).2).get (prefixKey n1) = some b1 :=
    getPrefix_preserves_assignment _ n2 n1 b1 hv1
  have hv2 : (( getPrefix n2 (( getPrefix n1 st).2)).2).get (prefixKey n2) = some b2 :=
    getPrefix_ok_value _ n2 b2 h2
  constructor
  · intro heq
    exact hne (hinv2.1 n1 n2 b1 hv1b (heq ▸ hv2))
  · intro name b hb
    exact getPrefix_preserves_assignment _ n2 name b
      (getPrefix_preserves_assignment _ n1 name b hb)

/-- Witness for C2 (amended) on a fresh store: `a` gets `0x0001`, `b`
gets `0x0002`, and they differ. -/
theorem c2_prefix_uniqueness_amended_witness : ([0, 1] : Buffer) ≠ [0, 2] :=
  (c2_prefix_uniqueness_amended emptyStore OkReachableStore.base "a" "b" [0, 1] [0, 2]
    (by decide) (by decide) (by decide)).1

theorem aName_inj {i j : Nat} (h : aName i = aName j) : i = j := by
  have hd : List.replicate i 'a' = List.replicate j 'a' := congrArg String.data h
  have hlen := congrArg List.length hd
  simpa using hlen

theorem aName_ne_b {i : Nat} (hi : 1 ≤ i) : aName i ≠ "b" := by
  intro h
  have hd : List.replicate i 'a' = "b".data := congrArg String.data h
  have hb : "b".data = ['b'] := rfl
  rw [hb] at hd
  have hlen := congrArg List.length hd
  simp at hlen
  subst hlen
  simp at hd

theorem traceState_zero : TraceState 0 emptyStore :=
  ⟨fun i h1 h2 => by omega, fun j hj => rfl, rfl, rfl⟩

theorem traceState_succ (k : Nat) (st : Store) (hk : k + 1 ≤ 65534)
    (hst : TraceState k st) :
    TraceState (k + 1) (( getPrefix (aName (k + 1)) st).2) ∧
    ( getPrefix (aName (k + 1)) st).1 = .ok (enc16 (k + 1)) := by
  obtain ⟨hsome, hnone, hb, hnu⟩ := hst
  have hmiss : st.get (prefixKey (aName (k + 1))) = none := hnone (k + 1) (by omega)
  have hbuf : (st.get nextUnusedKey).getD [0, 1] = enc16 (k + 1) := by
    rw [hnu]
    by_cases hk0 : k = 0
    · subst hk0
      decide
    · rw [if_neg hk0]
      rfl
  have hread : readUInt16BE ((st.get nextUnusedKey).getD [0, 1]) 0 = .ok (k + 1) := by
    rw [hbuf]
    exact readUInt16BE_enc16 _
  have hwrite : writeUInt16BE (k + 1 + 1) = .ok (enc16 (k + 2)) := by
    unfold writeUInt16BE
    rw [if_pos (by omega)]
  have heq : getPrefix (aName (k + 1)) st =
      (.ok (enc16 (k + 1)),
       (st.put (prefixKey (aName (k + 1))) (enc16 (k + 1))).put
         nextUnusedKey (enc16 (k + 2))) := by
    simp [ getPrefix, hmiss, hbuf, readUInt16BE_enc16, hwrite]
  rw [heq]
  refine ⟨⟨?_, ?_, ?_, ?_⟩, rfl⟩
  · intro i h1 h2
    rw [put_put_get_prefixKey]
    by_cases hik : i = k + 1
    · subst hik
      rw [if_pos rfl]
    · rw [if_neg (fun hh : aName i = aName (k + 1) => hik (aName_inj hh))]
      exact hsome i h1 (by omega)
  · intro j hj
    rw [put_put_get_prefixKey,
      if_neg (fun hh : aName j = aName (k + 1) => by
        have := aName_inj hh
        omega)]
    exact hnone j (by omega)
  · rw [put_put_get_prefixKey,
      if_neg (fun hh : ("b" : String) = aName (k + 1) =>
        aName_ne_b (by omega) hh.symm)]
    exact hb
  · rw [store_get_put_self, if_neg (by omega : ¬(k + 1 = 0))]

theorem traceState_runs : ∀ k : Nat, k ≤ 65534 →
    TraceState k (runPrefixCalls (traceNames k) emptyStore) := by
  intro k
  induction k with
  | zero => intro _; exact traceState_zero
  | succ k ih =>
    intro hk
    have hsplit : traceNames (k + 1) = traceNames k ++ [aName (k + 1)] := by
      simp [traceNames, List.range_succ]
    have hrun : runPrefixCalls (traceNames (k + 1)) emptyStore =
        ( getPrefix (aName (k + 1)) (runPrefixCalls (traceNames k) emptyStore)).2 := by
      rw [hsplit]
      simp [runPrefixCalls, List.foldl_append]
    rw [hrun]
    exact (traceState_succ k _ hk (ih (by omega))).1

theorem reachable_runPrefixCalls (names : List String) :
    ∀ st : Store, ReachableStore st → ReachableStore (runPrefixCalls names st) := by
  induction names with
  | nil => intro st h; exact h
  | cons n rest ih =>
    intro st h
    exact ih _ (ReachableStore.step st n h)

/-- C2 counterexample: the unamended claim — distinct services always
receive distinct prefixes from any state the allocator can reach,
erroring histories included — is false: after 65534 successful
assignments and one exhausted (erroring) assignment of `0xffff` to
`aName 65535`, the store is reachable and a further call assigns
`0xffff` to `"b"` as well, so both services read back the same prefix. -/
theorem c2_prefix_uniqueness_counterexample :
    ¬ (∀ st : Store, ReachableStore st → ∀ n1 n2 b1 b2, n1 ≠ n2 →
        ( getPrefix n1 st).1 = .ok b1 →
        ( getPrefix n2 (( getPrefix n1 st).2)).1 = .ok b2 →
        b1 ≠ b2) := by
  intro hclaim
  obtain ⟨hsome, hnone, hbnone, hnu⟩ := traceState_runs 65534 (by omega)
  have hmiss1 : (runPrefixCalls (traceNames 65534) emptyStore).get
      (prefixKey (aName 65535)) = none := hnone 65535 (by omega)
  have hnu1 : (runPrefixCalls (traceNames 65534) emptyStore).get nextUnusedKey =
      some (enc16 65535) := by
    rw [hnu]
    rfl
  have hstep1 := getPrefix_overflow_step _ (aName 65535) hmiss1 hnu1
  have hS1get : ((runPrefixCalls (traceNames 65534) emptyStore).put
      (prefixKey (aName 65535)) (enc16 65535)).get (prefixKey (aName 65535)) =
      some (enc16 65535) := store_get_put_self ..
  have hS1b : ((runPrefixCalls (traceNames 65534) emptyStore).put
      (prefixKey (aName 65535)) (enc16 65535)).get (prefixKey "b") = none := by
    rw [store_get_put_ne _ _
      (fun hh => aName_ne_b (by omega) (prefixKey_injective hh).symm)]
    exact hbnone
  have hS1nu : ((runPrefixCalls (traceNames 65534) emptyStore).put
      (prefixKey (aName 65535)) (enc16 65535)).get nextUnusedKey =
      some (enc16 65535) := by
    rw [store_get_put_ne _ _ (nextUnusedKey_ne_prefixKey _)]
    exact hnu1
  have hstep2 := getPrefix_overflow_step _ "b" hS1b hS1nu
  have hS2a : (((runPrefixCalls (traceNames 65534) emptyStore).put
      (prefixKey (aName 65535)) (enc16 65535)).put (prefixKey "b")
      (enc16 65535)).get (prefixKey (aName 65535)) = some (enc16 65535) := by
    rw [store_get_put_ne _ _
      (fun hh => aName_ne_b (by omega) (prefixKey_injective hh))]
    exact hS1get
  have hS2b : (((runPrefixCalls (traceNames 65534) emptyStore).put
      (prefixKey (aName 65535)) (enc16 65535)).put (prefixKey "b")
      (enc16 65535)).get (prefixKey "b") = some (enc16 65535) :=
    store_get_put_self ..
  have h0 : ReachableStore (runPrefixCalls (traceNames 65534) emptyStore) :=
    reachable_runPrefixCalls _ emptyStore ReachableStore.base
  have h1 : ReachableStore ((runPrefixCalls (traceNames 65534) emptyStore).put
      (prefixKey (aName 65535)) (enc16 65535)) := by
    have hstep := ReachableStore.step (runPrefixCalls (traceNames 65534) emptyStore)
      (aName 65535) h0
    rwa [hstep1] at hstep
  have h2 : ReachableStore (((runPrefixCalls (traceNames 65534) emptyStore).put
      (prefixKey (aName 65535)) (enc16 65535)).put (prefixKey "b") (enc16 65535)) := by
    have hstep := ReachableStore.step _ "b" h1
    rwa [hstep2] at hstep
  have hcall1 : ( getPrefix (aName 65535)
      (((runPrefixCalls (traceNames 65534) emptyStore).put
        (prefixKey (aName 65535)) (enc16 65535)).put (prefixKey "b")
        (enc16 65535))).1 = .ok (enc16 65535) := by
    rw [getPrefix_hit _ _ _ hS2a]
  have hstable : ( getPrefix (aName 65535)
      (((runPrefixCalls (traceNames 65534) emptyStore).put
        (prefixKey (aName 65535)) (enc16 65535)).put (prefixKey "b")
        (enc16 65535))).2 =
      ((runPrefixCalls (traceNames 65534) emptyStore).put
        (prefixKey (aName 65535)) (enc16 65535)).put (prefixKey "b") (enc16 65535) := by
    rw [getPrefix_hit _ _ _ hS2a]
  have hcall2 : ( getPrefix "b" (( getPrefix (aName 65535)
      (((runPrefixCalls (traceNames 65534) emptyStore).put
        (prefixKey (aName 65535)) (enc16 65535)).put (prefixKey "b")
        (enc16 65535))).2)).1 = .ok (enc16 65535) := by
    rw [hstable, getPrefix_hit _ _ _ hS2b]
  exact hclaim _ h2 (aName 65535) "b" (enc16 65535) (enc16 65535)
    (aName_ne_b (by omega)) hcall1 hcall2 rfl
